import Mathlib

set_option maxRecDepth 8000

/-!
A shallow embedding of the deterministic text-processing core of the
Redaction-Ai repository (src/utils/textUtils.ts, with the data model of
src/types.ts).

JavaScript strings are modelled as lists of UTF-16 code units
(`List Nat`, each element below 2^16): JS `s.length`, `s[i]`,
`indexOf`, `===` on one-character strings, `split` and `replace` all
operate on UTF-16 code units, which this representation reflects
exactly.  `utf16Encode` converts a sequence of Unicode code points
(Lean `Char`s) into the corresponding JS string value.
-/

/-- UTF-16 encoding of one Unicode code point: code points below
0x10000 are one code unit, the rest become a surrogate pair
(0xD800 = 55296, 0xDC00 = 56320, 0x10000 = 65536, 0x400 = 1024). -/
def utf16EncodeChar (c : Char) : List Nat :=
  let n := c.toNat
  if n < 65536 then [n]
  else [55296 + (n - 65536) / 1024, 56320 + (n - 65536) % 1024]

/-- The JS string holding the given sequence of Unicode code points,
as its list of UTF-16 code units. -/
def utf16Encode (s : List Char) : List Nat :=
  (s.map utf16EncodeChar).flatten

/-- src/types.ts: `enum EntityType`. -/
inductive EntityType where
  | PERSON
  | LOCATION
  | EMAIL_ADDRESS
  | IP_ADDRESS
  | PHONE_NUMBER
  | CREDIT_CARD
  | DATE_TIME
  | URL
  deriving DecidableEq, Repr

/-- The name of an entity type as a JS string (ASCII code units),
as interpolated by `[${entity.type}]` in applyRedaction. -/
def typeStr : EntityType → List Nat
  | EntityType.PERSON => [80, 69, 82, 83, 79, 78]
  | EntityType.LOCATION => [76, 79, 67, 65, 84, 73, 79, 78]
  | EntityType.EMAIL_ADDRESS => [69, 77, 65, 73, 76, 95, 65, 68, 68, 82, 69, 83, 83]
  | EntityType.IP_ADDRESS => [73, 80, 95, 65, 68, 68, 82, 69, 83, 83]
  | EntityType.PHONE_NUMBER => [80, 72, 79, 78, 69, 95, 78, 85, 77, 66, 69, 82]
  | EntityType.CREDIT_CARD => [67, 82, 69, 68, 73, 84, 95, 67, 65, 82, 68]
  | EntityType.DATE_TIME => [68, 65, 84, 69, 95, 84, 73, 77, 69]
  | EntityType.URL => [85, 82, 76]

/-- src/types.ts: `interface DetectedEntity`.  `startIndex`/`endIndex`
are optional (calculated on the client side), modelled as `Option Nat`. -/
structure DetectedEntity where
  text : List Nat
  type : EntityType
  startIndex : Option Nat
  endIndex : Option Nat
  deriving DecidableEq, Repr

/-- src/types.ts: `type RedactionMode = 'REMOVE' | 'MASK'`. -/
inductive RedactionMode where
  | REMOVE
  | MASK
  deriving DecidableEq, Repr

/-- src/types.ts: `interface DiffChunk` field `type`:
'match' | 'mismatch-actual' | 'mismatch-expected'. -/
inductive DiffType where
  | matched
  | mismatchActual
  | mismatchExpected
  deriving DecidableEq, Repr

/-- src/types.ts: `interface DiffChunk`. -/
structure DiffChunk where
  value : List Nat
  type : DiffType
  deriving DecidableEq, Repr

/-- textUtils.ts lines 7-29, `calculateLevenshteinDistance`.  The
source fills the table `track[j][i]` with `track[0][i] = i`,
`track[j][0] = j` and
`track[j][i] = min(track[j][i-1]+1, track[j-1][i]+1, track[j-1][i-1]+ind)`
over prefixes of `s1` and `s2` and returns
`track[s2.length][s1.length]`; the entries compare single UTF-16 code
units (`s1[i-1] === s2[j-1]`).  This embedding states the same
recurrence as a recursion consuming the strings from the front (the
recurrence and its base cases are invariant under simultaneously
reversing both strings, so it computes the identical function of the
two code-unit lists). -/
def calculateLevenshteinDistance : List Nat → List Nat → Nat
  | [], s2 => s2.length
  | s1, [] => s1.length
  | c1 :: s1, c2 :: s2 =>
    min (calculateLevenshteinDistance (c1 :: s1) s2 + 1)
      (min (calculateLevenshteinDistance s1 (c2 :: s2) + 1)
        (calculateLevenshteinDistance s1 s2 + (if c1 = c2 then 0 else 1)))

/-- textUtils.ts lines 34-38, `calculateSimilarity`.  JS numbers are
modelled as exact rationals. -/
def calculateSimilarity (original redacted : List Nat) (distance : ℚ) : ℚ :=
  let maxLength : ℚ := ((max original.length redacted.length : Nat) : ℚ)
  if maxLength = 0 then 100
  else max 0 ((maxLength - distance) / maxLength * 100)

/-- JS `text.slice(i).startsWith(pat)` figure: the pattern occurs in
`s` at position `i` (an occurrence of the empty pattern exists at every
position). -/
def occursAt (s pat : List Nat) (i : Nat) : Bool :=
  (s.drop i).take pat.length == pat

/-- JS `String.prototype.indexOf(pat, pos)`: the smallest index `k`
with `min(pos, s.length) ≤ k` at which `pat` occurs, or `none`
(JS -1).  For a non-empty pattern an occurrence forces
`k + pat.length ≤ s.length`; for the empty pattern the result is
`min(pos, s.length)`, never `none`. -/
def jsIndexOf (s pat : List Nat) (pos : Nat) : Option Nat :=
  (List.range (s.length + 1)).find?
    (fun i => decide (min pos s.length ≤ i) && occursAt s pat i)

/-- textUtils.ts lines 61-82: the
`while ((foundIndex = text.indexOf(entity.text, searchIndex)) !== -1)`
loop of `applyRedaction`, collecting every found index; the source
advances with `searchIndex = foundIndex + 1`.  The source loop has no
iteration bound, so the embedding takes explicit fuel and answers
`none` when the bound is exhausted: for a non-empty pattern the found
indices strictly increase and stay below `text.length`, so fuel
`text.length + 1` always suffices, while for the empty pattern
`indexOf` never returns -1 and the loop never exits (`none` for every
fuel). -/
def findInstances (s pat : List Nat) : Nat → Nat → Option (List Nat)
  | 0, _ => none
  | fuel + 1, searchIndex =>
    match jsIndexOf s pat searchIndex with
    | none => some []
    | some foundIndex =>
      match findInstances s pat fuel (foundIndex + 1) with
      | none => none
      | some rest => some (foundIndex :: rest)

/-- textUtils.ts lines 83-86: `currentText.replace(regex, replacement)`
where `regex` is the entity text with every regex metacharacter
escaped, compiled with the `g` flag: a global, literal, case-sensitive,
left-to-right, non-overlapping replacement of `pat` by `rep`.  (The
source only ever reaches this call with a non-empty `pat`: an
empty-text entity makes the preceding while loop diverge; for a
non-empty pattern the `pat = []` branch below is never taken.) -/
def replaceAllFuel (pat rep : List Nat) : Nat → List Nat → List Nat
  | _, [] => []
  | 0, l => l
  | fuel + 1, c :: rest =>
    if pat ≠ [] ∧ occursAt (c :: rest) pat 0 = true then
      rep ++ replaceAllFuel pat rep fuel (rest.drop (pat.length - 1))
    else
      c :: replaceAllFuel pat rep fuel rest

/-- Every step of the scan consumes at least one code unit of the
subject, so fuel `s.length` always suffices and the fuel-exhaustion
branch above is never taken. -/
def replaceAll (pat rep s : List Nat) : List Nat :=
  replaceAllFuel pat rep s.length s

/-- textUtils.ts line 89: `currentText.replace(/ +/g, ' ')` collapses
every run of the plain space character (code unit 32) into a single
space.  The flag records whether the previous emitted unit was part of
a space run. -/
def collapseSpacesAux : Bool → List Nat → List Nat
  | _, [] => []
  | prevSpace, c :: rest =>
    if c = 32 then
      if prevSpace then collapseSpacesAux true rest
      else 32 :: collapseSpacesAux true rest
    else c :: collapseSpacesAux false rest

def collapseSpaces (s : List Nat) : List Nat :=
  collapseSpacesAux false s

/-- JS WhiteSpace and LineTerminator code units removed by
`String.prototype.trim`. -/
def isJsTrimWhite (c : Nat) : Bool :=
  c == 9 || c == 10 || c == 11 || c == 12 || c == 13 || c == 32 ||
  c == 160 || c == 5760 || (8192 ≤ c && c ≤ 8202) || c == 8232 ||
  c == 8233 || c == 8239 || c == 8287 || c == 12288 || c == 65279

/-- textUtils.ts line 89: `.trim()`. -/
def trimJS (s : List Nat) : List Nat :=
  ((s.dropWhile isJsTrimWhite).reverse.dropWhile isJsTrimWhite).reverse

/-- textUtils.ts line 83: the MASK replacement literal
`[${entity.type}]` (91 = open bracket, 93 = close bracket). -/
def maskReplacement (t : EntityType) : List Nat :=
  91 :: typeStr t ++ [93]

/-- textUtils.ts lines 66-79: registration of one found index into
`processedEntities` — the candidate range
`[foundIndex, foundIndex + entity.text.length)` is pushed unless it
overlaps an already-registered range (`foundIndex < e.endIndex &&
foundIndex + entity.text.length > e.startIndex`, guarded by both
indices being defined). -/
def registerInstance (entity : DetectedEntity) (ps : List DetectedEntity)
    (foundIndex : Nat) : List DetectedEntity :=
  let isOverlap := ps.any fun e =>
    match e.startIndex, e.endIndex with
    | some s, some t =>
      decide (foundIndex < t) && decide (foundIndex + entity.text.length > s)
    | _, _ => false
  if isOverlap then ps
  else ps ++ [⟨entity.text, entity.type, some foundIndex,
              some (foundIndex + entity.text.length)⟩]

/-- textUtils.ts lines 61-86: the body of `sortedEntities.forEach`:
resolve every occurrence of the entity text in the original `text`
into `processedEntities`, then substitute the entity text in the
running buffer.  `none` propagates the divergence of the index-finding
loop (empty entity text). -/
def redactionStep (text : List Nat) (mode : RedactionMode)
    (acc : List DetectedEntity × List Nat) (entity : DetectedEntity) :
    Option (List DetectedEntity × List Nat) :=
  match findInstances text entity.text (text.length + 1) 0 with
  | none => none
  | some founds =>
    some (founds.foldl (registerInstance entity) acc.1,
      replaceAll entity.text
        (match mode with
         | RedactionMode.MASK => maskReplacement entity.type
         | RedactionMode.REMOVE => []) acc.2)

/-- The return value of `applyRedaction`. -/
structure RedactionResult where
  redactedText : List Nat
  entitiesWithIndices : List DetectedEntity
  deriving DecidableEq, Repr

/-- textUtils.ts lines 43-94, `applyRedaction`.  The source first
stable-sorts the entities by descending text length
(`sort((a, b) => b.text.length - a.text.length)`; JS `Array.sort` is
stable, and `List.insertionSort` with the matching total preorder is
the identical stable sort), folds the per-entity step over the
original text buffer, collapses space runs, trims, and finally
stable-sorts the processed entities ascending by
`(a.startIndex || 0)`.  A `none` result models the source's
non-termination (possible only through an empty entity text). -/
def applyRedaction (text : List Nat) (entities : List DetectedEntity)
    (mode : RedactionMode) : Option RedactionResult :=
  let sortedEntities :=
    List.insertionSort (fun a b => b.text.length ≤ a.text.length) entities
  match List.foldlM (redactionStep text mode) ([], text) sortedEntities with
  | none => none
  | some (processedEntities, currentText) =>
    some ⟨trimJS (collapseSpaces currentText),
      List.insertionSort
        (fun a b => a.startIndex.getD 0 ≤ b.startIndex.getD 0)
        processedEntities⟩

/-- Ranges of two entities overlap in the sense of the spec:
`start < otherEnd && end > otherStart`, with unresolved indices never
overlapping. -/
def overlapsB (a b : DetectedEntity) : Bool :=
  match a.startIndex, a.endIndex, b.startIndex, b.endIndex with
  | some s1, some t1, some s2, some t2 =>
    decide (s1 < t2) && decide (t1 > s2)
  | _, _, _, _ => false

/-- The resolved-range invariant of the spec for one entity against
the original text: indices are set, `0 ≤ startIndex < endIndex ≤
text.length`, and the entity text equals the designated substring of
the original text. -/
def resolvedOK (text : List Nat) (e : DetectedEntity) : Prop :=
  ∃ s t, e.startIndex = some s ∧ e.endIndex = some t ∧ s < t ∧
    t ≤ text.length ∧ e.text = (text.drop s).take (t - s)

/-- textUtils.ts lines 211-223, `mergeEntities`: `merged` starts as a
copy of `aiEntities`; each regex entity is appended iff its text is
not in the set of AI texts (the set is built once up front and never
updated). -/
def mergeEntities (aiEntities regexEntities : List DetectedEntity) :
    List DetectedEntity :=
  let aiTexts := aiEntities.map (fun e => e.text)
  regexEntities.foldl
    (fun merged re => if re.text ∈ aiTexts then merged else merged ++ [re])
    aiEntities

/-- textUtils.ts lines 148-208, `detectRegexEntities`.  Each
`while ((match = regex.exec(text)) !== null)` loop is modelled by the
list of matched substrings the corresponding JS regex produces on the
input (the JS RegExp engine is external to the core and is taken as an
abstract match-list parameter); the detector structure — which pattern
feeds which category, the order of the blocks, and the length guards
`match[0].length >= 10` on the phone block and `match[0].length <= 10`
on the date block — is from the source. -/
def detectRegexEntities (emailMatches ipMatches urlMatches ccMatches
    phoneMatches dateMatches timeMatches : List (List Nat)) :
    List DetectedEntity :=
  (emailMatches.map (fun m => ⟨m, EntityType.EMAIL_ADDRESS, none, none⟩)) ++
  (ipMatches.map (fun m => ⟨m, EntityType.IP_ADDRESS, none, none⟩)) ++
  (urlMatches.map (fun m => ⟨m, EntityType.URL, none, none⟩)) ++
  (ccMatches.map (fun m => ⟨m, EntityType.CREDIT_CARD, none, none⟩)) ++
  ((phoneMatches.filter (fun m => 10 ≤ m.length)).map
    (fun m => ⟨m, EntityType.PHONE_NUMBER, none, none⟩)) ++
  ((dateMatches.filter (fun m => m.length ≤ 10)).map
    (fun m => ⟨m, EntityType.DATE_TIME, none, none⟩)) ++
  (timeMatches.map (fun m => ⟨m, EntityType.DATE_TIME, none, none⟩))

/-- Code units matched by `[^\S\r\n]` in the tokenizer regex of
`computeWordDiff`: JS whitespace minus carriage return and line
feed. -/
def isTokenSpace (c : Nat) : Bool :=
  c == 9 || c == 11 || c == 12 || c == 32 || c == 160 || c == 5760 ||
  (8192 ≤ c && c ≤ 8202) || c == 8232 || c == 8233 || c == 8239 ||
  c == 8287 || c == 12288 || c == 65279

/-- JS regex word characters `[A-Za-z0-9_]` (for `\b`). -/
def isWordUnit (c : Nat) : Bool :=
  (48 ≤ c && c ≤ 57) || (65 ≤ c && c ≤ 90) || (97 ≤ c && c ≤ 122) || c == 95

/-- The punctuation class `[.,!?;:]` of the tokenizer regex. -/
def isPunctTok (c : Nat) : Bool :=
  c == 46 || c == 44 || c == 33 || c == 63 || c == 59 || c == 58

def isWordAt (s : List Nat) (i : Nat) : Bool :=
  isWordUnit (s.getD i 0)

/-- JS `\b`: a word boundary holds at position `q` iff exactly one of
the adjacent positions holds a word character (positions outside the
string count as non-word). -/
def isWordBoundary (s : List Nat) (q : Nat) : Bool :=
  (if q = 0 then false else isWordAt s (q - 1)) != isWordAt s q

/-- A sticky attempt of the tokenizer regex
`([^\S\r\n]+|[.,!?;:]|\b)` at position `q` of `s`, returning the end
position of the match (the alternatives are tried in source order; the
first and second consume characters, `\b` matches empty). -/
def matchTokenizerAt (s : List Nat) (q : Nat) : Option Nat :=
  match s.get? q with
  | some c =>
    if isTokenSpace c then
      some (q + ((s.drop q).takeWhile isTokenSpace).length)
    else if isPunctTok c then some (q + 1)
    else if isWordBoundary s q then some q
    else none
  | none => if isWordBoundary s q then some q else none

/-- The ES `String.prototype.split` driver loop for the (single-group)
tokenizer regex: `p` is the start of the pending substring, `q` the
scan position.  On a match ending at `e`: if `e = p` (an empty match
that would produce no progress) the scan advances one position,
otherwise the pending substring `s[p..q)` and the captured group
`s[q..e)` are emitted and both positions jump to `e`; when the scan
passes the end, the final substring `s[p..)` is emitted.  Both `p + q`
strictly increases per iteration and stays at most `2 * s.length`, so
fuel `2 * s.length + 2` always suffices; on exhaustion the tail
`s[p..)` is emitted so that concatenating the output always rebuilds
`s[p..)`. -/
def splitLoop (s : List Nat) : Nat → Nat → Nat → List (List Nat)
  | 0, p, _ => [s.drop p]
  | fuel + 1, p, q =>
    if q < s.length then
      match matchTokenizerAt s q with
      | none => splitLoop s fuel p (q + 1)
      | some e =>
        if e = p then splitLoop s fuel p (q + 1)
        else ((s.drop p).take (q - p)) :: ((s.drop q).take (e - q)) ::
          splitLoop s fuel e e
    else [s.drop p]

/-- textUtils.ts lines 105-107: `x.split(tokenizer).filter(s => s !== '')`. -/
def tokenize (s : List Nat) : List (List Nat) :=
  (splitLoop s (2 * s.length + 2) 0 0).filter (fun t => !t.isEmpty)

/-- textUtils.ts lines 109-118: the LCS table `dp[i][j]` over the two
token lists (`dp[i][j] = dp[i-1][j-1] + 1` on equal tokens, else
`max(dp[i-1][j], dp[i][j-1])`, zero on the borders).  The first
argument is structural-recursion fuel: every recursive appeal lowers
`i + j` by at least one while lowering the fuel by exactly one, so
with fuel `i + j` the fuel-exhaustion branch is never taken and
`lcsTable aT eT (i + j) i j` is the table entry `dp[i][j]`. -/
def lcsTable (aT eT : List (List Nat)) : Nat → Nat → Nat → Nat
  | _, 0, _ => 0
  | _, _ + 1, 0 => 0
  | 0, _ + 1, _ + 1 => 0
  | fuel + 1, i + 1, j + 1 =>
    if aT.getD i [] = eT.getD j [] then lcsTable aT eT fuel i j + 1
    else max (lcsTable aT eT fuel i (j + 1)) (lcsTable aT eT fuel (i + 1) j)

/-- textUtils.ts lines 120-137: the backtracking while loop of
`computeWordDiff`, from counters `(i, j)` down to `(0, 0)`, building
the chunk lists in push order (last token first; the caller reverses).
On equal tokens a match chunk goes to both sides; otherwise the
expected side is consumed (mismatch-expected) when `i = 0` or
`dp[i][j-1] >= dp[i-1][j]`, else the actual side is consumed
(mismatch-actual).  The first numeric argument is structural-recursion
fuel: every loop iteration lowers `i + j` by at least one while
lowering the fuel by exactly one, so with fuel `i + j` the
fuel-exhaustion branch is never taken. -/
def backtrack (dp : Nat → Nat → Nat) (aT eT : List (List Nat)) :
    Nat → Nat → Nat → List DiffChunk × List DiffChunk
  | _, 0, 0 => ([], [])
  | 0, _, _ => ([], [])
  | fuel + 1, 0, j + 1 =>
    let r := backtrack dp aT eT fuel 0 j
    (r.1, ⟨eT.getD j [], DiffType.mismatchExpected⟩ :: r.2)
  | fuel + 1, i + 1, 0 =>
    let r := backtrack dp aT eT fuel i 0
    (⟨aT.getD i [], DiffType.mismatchActual⟩ :: r.1, r.2)
  | fuel + 1, i + 1, j + 1 =>
    if aT.getD i [] = eT.getD j [] then
      let r := backtrack dp aT eT fuel i j
      (⟨aT.getD i [], DiffType.matched⟩ :: r.1,
       ⟨eT.getD j [], DiffType.matched⟩ :: r.2)
    else if dp (i + 1) j ≥ dp i (j + 1) then
      let r := backtrack dp aT eT fuel (i + 1) j
      (r.1, ⟨eT.getD j [], DiffType.mismatchExpected⟩ :: r.2)
    else
      let r := backtrack dp aT eT fuel i (j + 1)
      (⟨aT.getD i [], DiffType.mismatchActual⟩ :: r.1, r.2)

/-- The return value of `computeWordDiff`. -/
structure WordDiff where
  actualChunks : List DiffChunk
  expectedChunks : List DiffChunk
  deriving DecidableEq, Repr

/-- textUtils.ts lines 104-143, `computeWordDiff`.  The backtracking
loop starts at `(m, n)` with fuel `m + n` (sufficient, see
`backtrack`), reading the LCS table through its sufficient fuel. -/
def computeWordDiff (actual expected : List Nat) : WordDiff :=
  let actualTokens := tokenize actual
  let expectedTokens := tokenize expected
  let dp := fun i j => lcsTable actualTokens expectedTokens (i + j) i j
  let r := backtrack dp actualTokens expectedTokens
    (actualTokens.length + expectedTokens.length)
    actualTokens.length expectedTokens.length
  ⟨r.1.reverse, r.2.reverse⟩

/-! Helper lemmas (shared across the claim theorems below). -/

theorem calculateLevenshteinDistance_self (s : List Nat) :
    calculateLevenshteinDistance s s = 0 := by
  induction s with
  | nil => simp [calculateLevenshteinDistance]
  | cons c cs ih =>
    simp [calculateLevenshteinDistance, ih]

theorem calculateLevenshteinDistance_eq_zero {a b : List Nat}
    (h : calculateLevenshteinDistance a b = 0) : a = b := by
  induction a generalizing b with
  | nil =>
    cases b with
    | nil => rfl
    | cons y ys => simp [calculateLevenshteinDistance] at h
  | cons x xs ih =>
    cases b with
    | nil => simp [calculateLevenshteinDistance] at h
    | cons y ys =>
      simp only [calculateLevenshteinDistance] at h
      rcases Nat.min_eq_zero_iff.mp h with h1 | h2
      · omega
      · rcases Nat.min_eq_zero_iff.mp h2 with h1 | h3
        · omega
        · by_cases hxy : x = y
          · subst hxy
            rw [if_pos rfl] at h3
            have h0 : calculateLevenshteinDistance xs ys = 0 := by omega
            rw [ih h0]
          · rw [if_neg hxy] at h3
            omega

theorem mergeEntities_eq_append_filter (A B : List DetectedEntity) :
    mergeEntities A B =
      A ++ B.filter (fun re => decide (re.text ∉ A.map (fun e => e.text))) := by
  unfold mergeEntities
  have key : ∀ (l : List DetectedEntity) (acc : List DetectedEntity),
      l.foldl (fun merged re =>
        if re.text ∈ A.map (fun e => e.text) then merged else merged ++ [re]) acc =
      acc ++ l.filter (fun re => decide (re.text ∉ A.map (fun e => e.text))) := by
    intro l
    induction l with
    | nil => intro acc; simp
    | cons x xs ih =>
      intro acc
      simp only [List.foldl_cons, List.filter_cons]
      by_cases hx : x.text ∈ A.map (fun e => e.text)
      · rw [if_pos hx, ih]
        simp [hx]
      · rw [if_neg hx, ih]
        simp [hx]
  exact key B A

/-- Claim C2 (amended): `calculateLevenshteinDistance` operates on the
UTF-16 code units of its arguments, not on Unicode code points: the
distance from the empty string is the argument's UTF-16 length (so a
string holding one surrogate-pair character is at distance 2, not 1,
from the empty string), and the distance of every string from itself
is 0. -/
theorem spec_C2 (s : List Nat) :
    calculateLevenshteinDistance [] s = s.length ∧
    calculateLevenshteinDistance s s = 0 :=
  ⟨by cases s <;> simp [calculateLevenshteinDistance],
   calculateLevenshteinDistance_self s⟩

/-- Claim C2, counterexample to the claim as stated: the JS string
holding the single code point U+1D11E (one character, two UTF-16 code
units) has Levenshtein distance 2 from the empty string, not 1 =
its number of code points. -/
theorem spec_C2_counterexample :
    calculateLevenshteinDistance [] (utf16Encode [Char.ofNat 119070]) = 2 ∧
    calculateLevenshteinDistance [] (utf16Encode [Char.ofNat 119070]) ≠
      ([Char.ofNat 119070] : List Char).length := by
  have henc : utf16Encode [Char.ofNat 119070] = [55348, 56606] := by decide
  constructor
  · rw [henc]
    simp [calculateLevenshteinDistance]
  · rw [henc]
    simp [calculateLevenshteinDistance]

/-- Claim C4: `mergeEntities` returns all of the primary list,
unchanged and in order, followed by exactly those secondary entities
whose literal text is not (case-sensitively) the text of any primary
entity, in their original order; in particular every primary entity is
in the result, and every result entity not drawn from the primary list
has a text absent from the primary list. -/
theorem spec_C4 (A B : List DetectedEntity) :
    mergeEntities A B =
      A ++ B.filter (fun re => decide (re.text ∉ A.map (fun e => e.text))) ∧
    (∀ a ∈ A, a ∈ mergeEntities A B) ∧
    (∀ e ∈ mergeEntities A B, e ∉ A → e.text ∉ A.map (fun e => e.text)) := by
  refine ⟨mergeEntities_eq_append_filter A B, ?_, ?_⟩
  · intro a ha
    rw [mergeEntities_eq_append_filter]
    exact List.mem_append_left _ ha
  · intro e he hnotA
    rw [mergeEntities_eq_append_filter] at he
    rcases List.mem_append.mp he with h | h
    · exact absurd h hnotA
    · have hp := List.of_mem_filter h
      simpa using hp

theorem spec_C4_witness :
    (⟨[120], EntityType.PERSON, none, none⟩ : DetectedEntity) ∈
      mergeEntities [⟨[120], EntityType.PERSON, none, none⟩]
        [⟨[121], EntityType.LOCATION, none, none⟩] ∧
    (⟨[121], EntityType.LOCATION, none, none⟩ : DetectedEntity).text ∉
      ([⟨[120], EntityType.PERSON, none, none⟩] :
        List DetectedEntity).map (fun e => e.text) :=
  ⟨(spec_C4 [⟨[120], EntityType.PERSON, none, none⟩]
      [⟨[121], EntityType.LOCATION, none, none⟩]).2.1 _ (by decide),
   (spec_C4 [⟨[120], EntityType.PERSON, none, none⟩]
      [⟨[121], EntityType.LOCATION, none, none⟩]).2.2
      ⟨[121], EntityType.LOCATION, none, none⟩ (by decide) (by decide)⟩

/-- Claim C10: `mergeEntities` deduplicates secondary entities only
against the texts of the primary list, never against each other: for a
text `t` occurring in no primary entity, the merged result holds
exactly as many entities with text `t` as the secondary list does (so
duplicate secondary entities are all kept). -/
theorem spec_C10 (A B : List DetectedEntity) (t : List Nat)
    (ht : t ∉ A.map (fun e => e.text)) :
    (mergeEntities A B).countP (fun e => decide (e.text = t)) =
      B.countP (fun e => decide (e.text = t)) := by
  rw [mergeEntities_eq_append_filter, List.countP_append]
  have hA : A.countP (fun e => decide (e.text = t)) = 0 := by
    rw [List.countP_eq_zero]
    intro e he hbeq
    simp only [decide_eq_true_eq] at hbeq
    exact ht (List.mem_map.mpr ⟨e, he, hbeq⟩)
  rw [hA, Nat.zero_add, List.countP_filter]
  have hfun : (fun (a : DetectedEntity) =>
      decide (a.text = t) && decide (a.text ∉ A.map (fun e => e.text))) =
      fun a => decide (a.text = t) := by
    funext a
    by_cases hp : a.text = t
    · simp [hp, ht]
    · simp [hp]
  rw [hfun]

theorem spec_C10_witness :
    (mergeEntities [⟨[120], EntityType.PERSON, none, none⟩]
        [⟨[121], EntityType.PERSON, none, none⟩,
         ⟨[121], EntityType.LOCATION, none, none⟩]).countP
      (fun e => decide (e.text = [121])) =
    ([⟨[121], EntityType.PERSON, none, none⟩,
      ⟨[121], EntityType.LOCATION, none, none⟩] :
        List DetectedEntity).countP (fun e => decide (e.text = [121])) ∧
    ([⟨[121], EntityType.PERSON, none, none⟩,
      ⟨[121], EntityType.LOCATION, none, none⟩] :
        List DetectedEntity).countP (fun e => decide (e.text = [121])) = 2 :=
  ⟨spec_C10 _ _ _ (by decide), by decide⟩

/-- Claim C8: every PHONE_NUMBER entity emitted by
`detectRegexEntities` has text of length at least 10 code units; a
phone-pattern match shorter than 10 is discarded by the
`match[0].length >= 10` guard and yields no entity. -/
theorem spec_C8 (emailMatches ipMatches urlMatches ccMatches phoneMatches
    dateMatches timeMatches : List (List Nat)) (e : DetectedEntity)
    (he : e ∈ detectRegexEntities emailMatches ipMatches urlMatches ccMatches
      phoneMatches dateMatches timeMatches)
    (hty : e.type = EntityType.PHONE_NUMBER) :
    10 ≤ e.text.length := by
  unfold detectRegexEntities at he
  simp only [List.mem_append, List.mem_map, List.mem_filter] at he
  rcases he with ((((((h | h) | h) | h) | h) | h) | h)
  · obtain ⟨m, _, heq⟩ := h
    rw [← heq] at hty
    simp at hty
  · obtain ⟨m, _, heq⟩ := h
    rw [← heq] at hty
    simp at hty
  · obtain ⟨m, _, heq⟩ := h
    rw [← heq] at hty
    simp at hty
  · obtain ⟨m, _, heq⟩ := h
    rw [← heq] at hty
    simp at hty
  · obtain ⟨m, ⟨_, hlen⟩, heq⟩ := h
    rw [← heq]
    simpa using hlen
  · obtain ⟨m, _, heq⟩ := h
    rw [← heq] at hty
    simp at hty
  · obtain ⟨m, _, heq⟩ := h
    rw [← heq] at hty
    simp at hty

theorem spec_C8_witness :
    10 ≤ (⟨[48, 49, 50, 51, 52, 53, 54, 55, 56, 57],
      EntityType.PHONE_NUMBER, none, none⟩ : DetectedEntity).text.length :=
  spec_C8 [] [] [] [] [[48, 49, 50, 51, 52, 53, 54, 55, 56, 57]] [] []
    _ (by decide) (by decide)

/-- Claim C9: REMOVE-mode redaction of the text holding
"IP: 10.0.0.1 end" with the single IP_ADDRESS entity "10.0.0.1"
returns the redacted text "IP: end" — the double space left by the
removal is collapsed to a single space and the ends are trimmed — with
the entity resolved to the half-open range [4, 12). -/
theorem spec_C9 :
    applyRedaction [73, 80, 58, 32, 49, 48, 46, 48, 46, 48, 46, 49, 32, 101, 110, 100]
      [⟨[49, 48, 46, 48, 46, 48, 46, 49], EntityType.IP_ADDRESS, none, none⟩]
      RedactionMode.REMOVE =
    some ⟨[73, 80, 58, 32, 101, 110, 100],
      [⟨[49, 48, 46, 48, 46, 48, 46, 49], EntityType.IP_ADDRESS,
        some 4, some 12⟩]⟩ := by
  decide

/-- Claim C5: `calculateSimilarity` returns 100 when both strings are
empty and otherwise `max 0 ((maxLen - distance) / maxLen * 100)` with
`maxLen = max (length a) (length b)`; consequently, fed the
Levenshtein distance of its two strings, it lies in [0, 100] and
equals 100 exactly when the strings are equal. -/
theorem spec_C5 (a b : List Nat) (d : ℚ) :
    calculateSimilarity a b d =
      (if a = [] ∧ b = [] then (100 : ℚ)
       else max 0 ((((max a.length b.length : Nat) : ℚ) - d) /
         ((max a.length b.length : Nat) : ℚ) * 100)) ∧
    0 ≤ calculateSimilarity a b ((calculateLevenshteinDistance a b : Nat) : ℚ) ∧
    calculateSimilarity a b ((calculateLevenshteinDistance a b : Nat) : ℚ) ≤ 100 ∧
    (calculateSimilarity a b ((calculateLevenshteinDistance a b : Nat) : ℚ) = 100 ↔
      a = b) := by
  have hcond : (((max a.length b.length : Nat) : ℚ) = 0) ↔ (a = [] ∧ b = []) := by
    rw [Nat.cast_eq_zero, Nat.max_eq_zero_iff, List.length_eq_zero,
      List.length_eq_zero]
  by_cases hab : a = [] ∧ b = []
  · obtain ⟨ha, hb⟩ := hab
    subst ha
    subst hb
    refine ⟨by simp [calculateSimilarity], by simp [calculateSimilarity],
      by simp [calculateSimilarity], by simp [calculateSimilarity]⟩
  · have hM0 : ((max a.length b.length : Nat) : ℚ) ≠ 0 := fun h => hab (hcond.mp h)
    have hMpos : (0 : ℚ) < ((max a.length b.length : Nat) : ℚ) :=
      lt_of_le_of_ne (Nat.cast_nonneg _) (Ne.symm hM0)
    have hd0 : (0 : ℚ) ≤ ((calculateLevenshteinDistance a b : Nat) : ℚ) :=
      Nat.cast_nonneg _
    have hsim : ∀ d' : ℚ, calculateSimilarity a b d' =
        max 0 ((((max a.length b.length : Nat) : ℚ) - d') /
          ((max a.length b.length : Nat) : ℚ) * 100) := by
      intro d'
      simp only [calculateSimilarity]
      rw [if_neg hM0]
    refine ⟨by rw [hsim d, if_neg hab], ?_, ?_, ?_⟩
    · rw [hsim]
      exact le_max_left _ _
    · rw [hsim]
      apply max_le (by norm_num)
      have h1 : (((max a.length b.length : Nat) : ℚ) -
          ((calculateLevenshteinDistance a b : Nat) : ℚ)) /
          ((max a.length b.length : Nat) : ℚ) ≤ 1 :=
        div_le_one_of_le₀ (by linarith) (le_of_lt hMpos)
      nlinarith [h1]
    · rw [hsim]
      constructor
      · intro h
        rcases max_choice (0 : ℚ)
            ((((max a.length b.length : Nat) : ℚ) -
              ((calculateLevenshteinDistance a b : Nat) : ℚ)) /
              ((max a.length b.length : Nat) : ℚ) * 100) with h0 | hX
        · rw [h0] at h
          norm_num at h
        · rw [hX] at h
          have h100 : ((((max a.length b.length : Nat) : ℚ) -
              ((calculateLevenshteinDistance a b : Nat) : ℚ)) /
              ((max a.length b.length : Nat) : ℚ)) * 100 = 1 * 100 := by
            rw [h]
            ring
          have hdiv := mul_right_cancel₀ (by norm_num : (100 : ℚ) ≠ 0) h100
          rw [div_eq_one_iff_eq hM0] at hdiv
          have hlev0 : ((calculateLevenshteinDistance a b : Nat) : ℚ) = 0 := by
            linarith
          have hlev0' : calculateLevenshteinDistance a b = 0 := by
            exact_mod_cast hlev0
          exact calculateLevenshteinDistance_eq_zero hlev0'
      · intro hab'
        subst hab'
        rw [calculateLevenshteinDistance_self, Nat.cast_zero, sub_zero,
          div_self hM0, one_mul]
        exact max_eq_right (by norm_num)

theorem jsIndexOf_nil_isSome (s : List Nat) (pos : Nat) :
    (jsIndexOf s [] pos).isSome := by
  unfold jsIndexOf
  rw [List.find?_isSome]
  refine ⟨min pos s.length, ?_, ?_⟩
  · rw [List.mem_range, Nat.lt_succ_iff]
    exact min_le_right _ _
  · simp [occursAt]

theorem findInstances_nil_pat (s : List Nat) :
    ∀ fuel searchIndex, findInstances s [] fuel searchIndex = none := by
  intro fuel
  induction fuel with
  | zero => intro q; rfl
  | succ n ih =>
    intro q
    cases h : jsIndexOf s [] q with
    | none =>
      have hs := jsIndexOf_nil_isSome s q
      rw [h] at hs
      simp at hs
    | some f =>
      simp [findInstances, h, ih]

/-- Claim C3, code bug: `applyRedaction` is not total.  For an entity
whose text is the empty string the source's occurrence loop never
terminates — `text.indexOf('', i)` always returns a non-negative
index, so the `!== -1` test never fails.  In the embedding the loop
returns `none` at EVERY fuel bound (first conjunct), and the whole
call therefore returns no result (second conjunct), on the failing
input text "a" with the single PERSON entity whose text is empty. -/
theorem spec_C3 :
    (∀ fuel searchIndex, findInstances [97] [] fuel searchIndex = none) ∧
    applyRedaction [97] [⟨[], EntityType.PERSON, none, none⟩]
      RedactionMode.MASK = none :=
  ⟨fun fuel q => findInstances_nil_pat [97] fuel q, by decide⟩

theorem occursAt_props {s pat : List Nat} {f : Nat}
    (h : occursAt s pat f = true) (hne : pat ≠ []) :
    f + pat.length ≤ s.length ∧ (s.drop f).take pat.length = pat := by
  unfold occursAt at h
  have heq : (s.drop f).take pat.length = pat := by
    exact beq_iff_eq.mp h
  refine ⟨?_, heq⟩
  have hlen : ((s.drop f).take pat.length).length = pat.length := by rw [heq]
  rw [List.length_take, List.length_drop] at hlen
  have hple : pat.length ≤ s.length - f := min_eq_left_iff.mp hlen
  have hp : 0 < pat.length := List.length_pos.mpr hne
  omega

theorem findInstances_some_ne_nil {s pat : List Nat} {fuel q : Nat}
    {founds : List Nat}
    (h : findInstances s pat fuel q = some founds) : pat ≠ [] := by
  intro hpat
  rw [hpat, findInstances_nil_pat] at h
  cases h

theorem findInstances_mem_occurs (s pat : List Nat) :
    ∀ fuel q founds, findInstances s pat fuel q = some founds →
      ∀ f ∈ founds, occursAt s pat f = true := by
  intro fuel
  induction fuel with
  | zero =>
    intro q founds h
    cases h
  | succ n ih =>
    intro q founds h
    rw [findInstances] at h
    split at h
    next hj =>
      simp only [Option.some.injEq] at h
      subst h
      intro f hf
      cases hf
    next fi hj =>
      split at h
      next => cases h
      next rest hrec =>
        simp only [Option.some.injEq] at h
        subst h
        intro f hf
        rcases List.mem_cons.mp hf with rfl | hf'
        · unfold jsIndexOf at hj
          have hp := List.find?_some hj
          simp only [Bool.and_eq_true] at hp
          exact hp.2
        · exact ih (fi + 1) rest hrec f hf'

theorem overlapsB_symm (a b : DetectedEntity) : overlapsB a b = overlapsB b a := by
  obtain ⟨ta, ya, sa, ea⟩ := a
  obtain ⟨tb, yb, sb, eb⟩ := b
  rcases sa with _ | s1 <;> rcases ea with _ | t1 <;>
    rcases sb with _ | s2 <;> rcases eb with _ | t2 <;>
    simp [overlapsB, Bool.and_comm]

theorem registerInstance_inv (text : List Nat) (entity : DetectedEntity)
    (hne : entity.text ≠ []) (f : Nat)
    (hocc : occursAt text entity.text f = true) (ps : List DetectedEntity)
    (h1 : ∀ e ∈ ps, resolvedOK text e)
    (h2 : ps.Pairwise (fun a b => overlapsB a b = false)) :
    (∀ e ∈ registerInstance entity ps f, resolvedOK text e) ∧
    (registerInstance entity ps f).Pairwise
      (fun a b => overlapsB a b = false) := by
  unfold registerInstance
  by_cases hov : (ps.any fun e =>
      match e.startIndex, e.endIndex with
      | some s, some t =>
        decide (f < t) && decide (f + entity.text.length > s)
      | _, _ => false) = true
  · rw [if_pos hov]
    exact ⟨h1, h2⟩
  · rw [if_neg hov]
    obtain ⟨hbound, hsub⟩ := occursAt_props hocc hne
    have hlenpos : 0 < entity.text.length := List.length_pos.mpr hne
    have hnew : resolvedOK text
        ⟨entity.text, entity.type, some f, some (f + entity.text.length)⟩ := by
      refine ⟨f, f + entity.text.length, rfl, rfl, by omega, hbound, ?_⟩
      have : f + entity.text.length - f = entity.text.length := by omega
      rw [this]
      exact hsub.symm
    constructor
    · intro e he
      rcases List.mem_append.mp he with h | h
      · exact h1 e h
      · rcases List.mem_singleton.mp h with rfl
        exact hnew
    · rw [List.pairwise_append]
      refine ⟨h2, List.pairwise_singleton _ _, ?_⟩
      intro x hx y hy
      rcases List.mem_singleton.mp hy with rfl
      have hpx := (List.any_eq_false.mp (Bool.not_eq_true _ ▸ hov)) x hx
      obtain ⟨s, t, hs, ht, _, _, _⟩ := h1 x hx
      rw [hs, ht] at hpx
      simp only [Bool.and_eq_true, decide_eq_true_eq, not_and, not_lt] at hpx
      unfold overlapsB
      rw [hs, ht]
      rw [← Bool.not_eq_true]
      simp only [Bool.and_eq_true, decide_eq_true_eq, not_and, not_lt]
      intro hsf
      by_cases hft : f < t
      · have hle := hpx hft
        omega
      · omega

theorem foldl_register_inv (text : List Nat) (entity : DetectedEntity)
    (hne : entity.text ≠ []) :
    ∀ (founds : List Nat),
      (∀ f ∈ founds, occursAt text entity.text f = true) →
    ∀ (ps : List DetectedEntity), (∀ e ∈ ps, resolvedOK text e) →
      ps.Pairwise (fun a b => overlapsB a b = false) →
    (∀ e ∈ founds.foldl (registerInstance entity) ps, resolvedOK text e) ∧
    (founds.foldl (registerInstance entity) ps).Pairwise
      (fun a b => overlapsB a b = false) := by
  intro founds
  induction founds with
  | nil =>
    intro _ ps h1 h2
    exact ⟨h1, h2⟩
  | cons f fs ih =>
    intro hocc ps h1 h2
    rw [List.foldl_cons]
    obtain ⟨h1', h2'⟩ := registerInstance_inv text entity hne f
      (hocc f (List.mem_cons_self f fs)) ps h1 h2
    exact ih (fun g hg => hocc g (List.mem_cons_of_mem f hg)) _ h1' h2'

theorem foldlM_redaction_inv (text : List Nat) (mode : RedactionMode) :
    ∀ (es : List DetectedEntity) (acc out : List DetectedEntity × List Nat),
    (∀ e ∈ acc.1, resolvedOK text e) →
    acc.1.Pairwise (fun a b => overlapsB a b = false) →
    List.foldlM (redactionStep text mode) acc es = some out →
    (∀ e ∈ out.1, resolvedOK text e) ∧
    out.1.Pairwise (fun a b => overlapsB a b = false) := by
  intro es
  induction es with
  | nil =>
    intro acc out h1 h2 h
    have h' : (some acc : Option (List DetectedEntity × List Nat)) = some out := h
    cases h'
    exact ⟨h1, h2⟩
  | cons ent es ih =>
    intro acc out h1 h2 h
    rw [List.foldlM_cons] at h
    cases hstep : redactionStep text mode acc ent with
    | none =>
      rw [hstep] at h
      cases h
    | some acc' =>
      rw [hstep] at h
      have h' : List.foldlM (redactionStep text mode) acc' es = some out := h
      unfold redactionStep at hstep
      cases hfind : findInstances text ent.text (text.length + 1) 0 with
      | none =>
        rw [hfind] at hstep
        cases hstep
      | some founds =>
        rw [hfind] at hstep
        simp only [Option.some.injEq] at hstep
        have hne : ent.text ≠ [] := findInstances_some_ne_nil hfind
        have hocc := findInstances_mem_occurs text ent.text _ _ _ hfind
        obtain ⟨h1', h2'⟩ := foldl_register_inv text ent hne founds hocc
          acc.1 h1 h2
        rw [← hstep] at h'
        exact ih _ out h1' h2' h'

/-- Claim C1: every entity in the resolved-entity list returned by
`applyRedaction` carries indices with
`0 ≤ startIndex < endIndex ≤ text.length` whose designated substring
of the original input equals the entity text, and no two returned
entities have overlapping ranges (overlap being
`start < otherEnd && end > otherStart`). -/
theorem spec_C1 (text : List Nat) (entities : List DetectedEntity)
    (mode : RedactionMode) (res : RedactionResult)
    (h : applyRedaction text entities mode = some res) :
    (∀ e ∈ res.entitiesWithIndices, resolvedOK text e) ∧
    res.entitiesWithIndices.Pairwise (fun a b => overlapsB a b = false) := by
  unfold applyRedaction at h
  dsimp only at h
  split at h
  next hfold => cases h
  next processed currentText hfold =>
    simp only [Option.some.injEq] at h
    subst h
    obtain ⟨H1, H2⟩ := foldlM_redaction_inv text mode _ ([], text)
      (processed, currentText) (by intro e he; cases he) List.Pairwise.nil
      hfold
    have hperm := List.perm_insertionSort
      (fun a b => a.startIndex.getD 0 ≤ b.startIndex.getD 0) processed
    have hsymm : ∀ {x y : DetectedEntity},
        overlapsB x y = false → overlapsB y x = false := by
      intro x y hxy
      rw [overlapsB_symm]
      exact hxy
    constructor
    · intro e he
      exact H1 e (hperm.mem_iff.mp he)
    · exact (hperm.pairwise_iff hsymm).mpr H2

theorem spec_C1_witness :
    resolvedOK [97, 32, 98] ⟨[98], EntityType.PERSON, some 2, some 3⟩ ∧
    ([⟨[98], EntityType.PERSON, some 2, some 3⟩] :
      List DetectedEntity).Pairwise (fun a b => overlapsB a b = false) := by
  have h := spec_C1 [97, 32, 98] [⟨[98], EntityType.PERSON, none, none⟩]
    RedactionMode.REMOVE
    ⟨[97], [⟨[98], EntityType.PERSON, some 2, some 3⟩]⟩ (by decide)
  exact ⟨h.1 _ (List.mem_singleton.mpr rfl), h.2⟩

/-- Claim C6: the backtracker's fixed tie-break.  On unequal tokens at
counters `(i+1, j+1)` it consumes the expected-side token (emitting
MISMATCH_EXPECTED) exactly when `dp[i][j-1] >= dp[i-1][j]` — here
`dp (i+1) j ≥ dp i (j+1)` — and otherwise consumes the actual-side
token (emitting MISMATCH_ACTUAL); and concretely,
`computeWordDiff "the cat sat" "the dog sat"` marks `cat` as
MISMATCH_ACTUAL on the actual side, `dog` as MISMATCH_EXPECTED on the
expected side, and all surrounding tokens as MATCH on both sides. -/
theorem spec_C6 (dp : Nat → Nat → Nat) (aT eT : List (List Nat))
    (fuel i j : Nat) (hne : aT.getD i [] ≠ eT.getD j []) :
    (dp (i + 1) j ≥ dp i (j + 1) →
      backtrack dp aT eT (fuel + 1) (i + 1) (j + 1) =
        ((backtrack dp aT eT fuel (i + 1) j).1,
         ⟨eT.getD j [], DiffType.mismatchExpected⟩ ::
           (backtrack dp aT eT fuel (i + 1) j).2)) ∧
    (dp (i + 1) j < dp i (j + 1) →
      backtrack dp aT eT (fuel + 1) (i + 1) (j + 1) =
        (⟨aT.getD i [], DiffType.mismatchActual⟩ ::
           (backtrack dp aT eT fuel i (j + 1)).1,
         (backtrack dp aT eT fuel i (j + 1)).2)) ∧
    computeWordDiff [116, 104, 101, 32, 99, 97, 116, 32, 115, 97, 116]
        [116, 104, 101, 32, 100, 111, 103, 32, 115, 97, 116] =
      ⟨[⟨[116, 104, 101], DiffType.matched⟩, ⟨[32], DiffType.matched⟩,
        ⟨[99, 97, 116], DiffType.mismatchActual⟩, ⟨[32], DiffType.matched⟩,
        ⟨[115, 97, 116], DiffType.matched⟩],
       [⟨[116, 104, 101], DiffType.matched⟩, ⟨[32], DiffType.matched⟩,
        ⟨[100, 111, 103], DiffType.mismatchExpected⟩, ⟨[32], DiffType.matched⟩,
        ⟨[115, 97, 116], DiffType.matched⟩]⟩ := by
  refine ⟨?_, ?_, by decide⟩
  · intro hge
    rw [backtrack]
    rw [if_neg hne, if_pos hge]
  · intro hlt
    rw [backtrack]
    rw [if_neg hne, if_neg (not_le.mpr hlt)]

theorem spec_C6_witness :
    backtrack (fun _ _ => 0) [[99]] [[100]] 1 1 1 =
      ((backtrack (fun _ _ => 0) [[99]] [[100]] 0 1 0).1,
       ⟨[100], DiffType.mismatchExpected⟩ ::
         (backtrack (fun _ _ => 0) [[99]] [[100]] 0 1 0).2) :=
  (spec_C6 (fun _ _ => 0) [[99]] [[100]] 0 0 0 (by decide)).1 (le_refl 0)

theorem flatten_filter_nonempty (l : List (List Nat)) :
    (l.filter (fun t => !t.isEmpty)).flatten = l.flatten := by
  induction l with
  | nil => rfl
  | cons x xs ih =>
    cases x with
    | nil => simpa [List.filter_cons] using ih
    | cons c cs => simp [List.filter_cons, ih]

theorem matchTokenizerAt_le {s : List Nat} {q e : Nat}
    (h : matchTokenizerAt s q = some e) : q ≤ e := by
  unfold matchTokenizerAt at h
  split at h
  next c hg =>
    split_ifs at h with h1 h2 h3
    · injection h with h'
      omega
    · injection h with h'
      omega
    · injection h with h'
      omega
  next hg =>
    split_ifs at h with h1
    injection h with h'
    omega

theorem take_drop_append (s : List Nat) {p q : Nat} (h : p ≤ q) :
    (s.drop p).take (q - p) ++ s.drop q = s.drop p := by
  have hd : s.drop q = (s.drop p).drop (q - p) := by
    rw [List.drop_drop]
    congr 1
    omega
  rw [hd, List.take_append_drop]

theorem splitLoop_flatten (s : List Nat) :
    ∀ fuel p q, p ≤ q → (splitLoop s fuel p q).flatten = s.drop p := by
  intro fuel
  induction fuel with
  | zero =>
    intro p q _
    simp [splitLoop]
  | succ n ih =>
    intro p q hpq
    rw [splitLoop]
    by_cases hq : q < s.length
    · rw [if_pos hq]
      split
      next => exact ih p (q + 1) (by omega)
      next e hm =>
        have hqe : q ≤ e := matchTokenizerAt_le hm
        by_cases hep : e = p
        · rw [if_pos hep]
          exact ih p (q + 1) (by omega)
        · rw [if_neg hep]
          simp only [List.flatten_cons]
          rw [ih e e (le_refl e), take_drop_append s hqe, take_drop_append s hpq]
    · rw [if_neg hq]
      simp

theorem tokenize_flatten (s : List Nat) : (tokenize s).flatten = s := by
  unfold tokenize
  rw [flatten_filter_nonempty, splitLoop_flatten s _ 0 0 (le_refl 0)]
  exact List.drop_zero s

theorem backtrack_self (dp : Nat → Nat → Nat) (T : List (List Nat)) :
    ∀ k fuel, k ≤ T.length → k ≤ fuel →
      backtrack dp T T fuel k k =
        ((T.take k).reverse.map (fun t => ⟨t, DiffType.matched⟩),
         (T.take k).reverse.map (fun t => ⟨t, DiffType.matched⟩)) := by
  intro k
  induction k with
  | zero =>
    intro fuel _ _
    cases fuel <;> simp [backtrack]
  | succ n ih =>
    intro fuel hk hfuel
    cases fuel with
    | zero => omega
    | succ f =>
      rw [backtrack, if_pos rfl]
      rw [ih f (by omega) (by omega)]
      have hn : n < T.length := by omega
      have hx : T[n]? = some T[n] := List.getElem?_eq_getElem hn
      have hgd : T.getD n [] = T[n] := by
        simp [List.getD, hx]
      rw [List.take_succ, hx, hgd]
      simp [List.reverse_append]
      rw [List.take_succ, List.reverse_append]
      simp [List.getElem?_map, hx]

/-- Claim C7: aligning a string with itself yields only MATCH chunks
on both sides; the chunk values on either side are exactly the token
stream of the input, whose concatenation rebuilds the input string
itself; and empty inputs yield empty chunk sequences. -/
theorem spec_C7 (x : List Nat) :
    ((computeWordDiff x x).actualChunks.all
      (fun c => c.type == DiffType.matched)) = true ∧
    ((computeWordDiff x x).expectedChunks.all
      (fun c => c.type == DiffType.matched)) = true ∧
    (computeWordDiff x x).actualChunks.map (fun c => c.value) = tokenize x ∧
    (computeWordDiff x x).expectedChunks.map (fun c => c.value) = tokenize x ∧
    (tokenize x).flatten = x ∧
    computeWordDiff [] [] = ⟨[], []⟩ := by
  have hcw : computeWordDiff x x =
      ⟨(tokenize x).map (fun t => ⟨t, DiffType.matched⟩),
       (tokenize x).map (fun t => ⟨t, DiffType.matched⟩)⟩ := by
    unfold computeWordDiff
    dsimp only
    rw [backtrack_self _ (tokenize x) (tokenize x).length
      ((tokenize x).length + (tokenize x).length) (le_refl _)
      (Nat.le_add_right _ _)]
    simp [List.take_length, List.map_reverse]
  refine ⟨?_, ?_, ?_, ?_, tokenize_flatten x, by decide⟩ <;>
    rw [hcw] <;>
    simp [List.all_eq_true, List.map_map, Function.comp_def]
